import Mathlib

/-!
Verification development for the fantasy-football-auction library.

The Python sources are embedded shallowly:
* `Position`, `Player`, `RosterSlot` model `position.py` and `player.py`.
* `OwnerRosterSlot`, `Owner` model the `Owner` class of `owner.py`
  (the revision with purchase-cost tracking, an owned-id set and a cached
  remaining-pick counter).
* Namespace `Auc` models `auction.py`, including the `Owner` class that is
  defined inside `auction.py` itself (the one the `Auction` class actually
  uses; it differs from `owner.py`'s `Owner`).

Python `int` is `Int`; Python exceptions become an `Except PyExc` result;
Python `set` becomes `Finset`; Python's stable `list.sort(key=...)` becomes
`stableSortBy` (a stable insertion sort); Python list indexing that can raise
`IndexError` is modelled with `List.get?` plus an explicit error.  Indices are
modelled as naturals: Python's negative-index behaviour is not needed by any
claim.  `random.choice(l)` is modelled by passing a draw `k : Nat` and taking
`l[k % len l]`, which reaches every element of `l`.
-/

inductive Position where
  | QB | RB | WR | TE | DST | K | LB | DE | DT | CB | S
deriving DecidableEq, Repr, Inhabited

structure Player where
  name : String
  position : Position
  value : Int
  player_id : Nat
deriving DecidableEq, Repr, Inhabited

/-- Python equality `Player.__eq__`: equality is by `player_id` only. -/
def Player.pyEq (a b : Player) : Bool := a.player_id == b.player_id

structure RosterSlot where
  positions : List Position
  abbreviation : String
deriving DecidableEq, Repr, Inhabited

def RosterSlot.num_accepted (s : RosterSlot) : Nat := s.positions.length

def RosterSlot.accepts (s : RosterSlot) (p : Player) : Bool :=
  s.positions.contains p.position

/-! The `RosterSlot` catalog from `position.py`. -/

def RosterSlot.QB : RosterSlot := ⟨[.QB], "QB"⟩
def RosterSlot.RB : RosterSlot := ⟨[.RB], "RB"⟩
def RosterSlot.WR : RosterSlot := ⟨[.WR], "WR"⟩
def RosterSlot.TE : RosterSlot := ⟨[.TE], "TE"⟩
def RosterSlot.WRRB : RosterSlot := ⟨[.WR, .RB], "WR/RB"⟩
def RosterSlot.WRTE : RosterSlot := ⟨[.WR, .TE], "WR/TE"⟩
def RosterSlot.RBTE : RosterSlot := ⟨[.RB, .TE], "RB/TE"⟩
def RosterSlot.WRRBTE : RosterSlot := ⟨[.WR, .RB, .TE], "WR/RB/TE"⟩
def RosterSlot.QBWRRBTE : RosterSlot := ⟨[.QB, .WR, .RB, .TE], "QB/WR/RB/TE"⟩
def RosterSlot.DST : RosterSlot := ⟨[.DST], "DST"⟩
def RosterSlot.K : RosterSlot := ⟨[.K], "K"⟩
def RosterSlot.BN : RosterSlot :=
  ⟨[.QB, .RB, .WR, .TE, .DST, .K, .LB, .DE, .DT, .CB, .S], "BN"⟩
def RosterSlot.DL : RosterSlot := ⟨[.DT, .DE], "DL"⟩
def RosterSlot.LB : RosterSlot := ⟨[.LB], "LB"⟩
def RosterSlot.DB : RosterSlot := ⟨[.CB, .S], "DB"⟩
def RosterSlot.IDP : RosterSlot := ⟨[.LB, .DE, .DT, .CB, .S], "IDP"⟩
def RosterSlot.DE : RosterSlot := ⟨[.DE], "DE"⟩
def RosterSlot.DT : RosterSlot := ⟨[.DT], "DT"⟩
def RosterSlot.CB : RosterSlot := ⟨[.CB], "CB"⟩
def RosterSlot.S : RosterSlot := ⟨[.S], "S"⟩

/-- The exceptions the library can raise, together with the builtin Python
exceptions its code can trigger. -/
inductive PyExc where
  | indexError | valueError | assertionError | attributeError | zeroDivisionError
  | insufficientFunds | noValidRosterSlot | alreadyPurchased
deriving DecidableEq, Repr, Inhabited

/-- One insertion step of a stable insertion sort: `x` is placed before the
first element it is strictly ordered before, hence after all elements that
compare equal to it. -/
def insOrd {α : Type} (lt : α → α → Bool) (x : α) : List α → List α
  | [] => [x]
  | y :: ys => if lt x y then x :: y :: ys else y :: insOrd lt x ys

/-- Stable sort, modelling Python's stable `list.sort`: elements are inserted
left to right, each after its equals. `lt a b` means `a` must come strictly
before `b`. -/
def stableSortBy {α : Type} (lt : α → α → Bool) (l : List α) : List α :=
  l.foldl (fun acc x => insOrd lt x acc) []

/-! ## The `Owner` of `owner.py` -/

/-- The `OwnerRosterSlot` of `owner.py`: a roster slot plus occupant and the price
paid (`-1` while unoccupied). -/
structure OwnerRosterSlot where
  positions : List Position
  abbreviation : String
  occupant : Option Player
  cost : Int
deriving DecidableEq, Repr, Inhabited

def OwnerRosterSlot.accepts (s : OwnerRosterSlot) (p : Player) : Bool :=
  s.positions.contains p.position

def OwnerRosterSlot.num_accepted (s : OwnerRosterSlot) : Nat := s.positions.length

def OwnerRosterSlot.from_roster_slot (rs : RosterSlot) : OwnerRosterSlot :=
  ⟨rs.positions, rs.abbreviation, none, -1⟩

/-- The `Owner` of `owner.py`.  `remaining_picks_cache` is the `_remaining_picks`
field (kept as `Int` because Python decrements it without a lower bound), and
`owned_player_ids` is the `_owned_player_ids` set. -/
structure Owner where
  money : Int
  roster : List OwnerRosterSlot
  id : Nat
  remaining_picks_cache : Int
  owned_player_ids : Finset Nat
deriving DecidableEq

deriving instance DecidableEq for Except

/-- The constructor `Owner.__init__`: copy the template and stable-sort it ascending by
`num_accepted`. -/
def Owner.init (money : Int) (roster : List RosterSlot) (owner_id : Nat) : Owner :=
  let r := stableSortBy (fun a b => decide (a.num_accepted < b.num_accepted))
    (roster.map OwnerRosterSlot.from_roster_slot)
  { money := money, roster := r, id := owner_id,
    remaining_picks_cache := (r.length : Int), owned_player_ids := ∅ }

/-- The method `Owner._slot_in` of `owner.py`: scan the roster in order; at the first
accepting slot that is empty, place the carried player; at the first accepting
slot whose occupant has strictly smaller value, swap and keep scanning with
the evicted occupant (and its recorded cost). -/
def Owner.slot_in : List OwnerRosterSlot → Player → Int → List OwnerRosterSlot
  | [], _, _ => []
  | s :: rest, p, c =>
    if s.accepts p then
      match s.occupant with
      | none => { s with occupant := some p, cost := c } :: rest
      | some q =>
        if q.value < p.value then
          { s with occupant := some p, cost := c } :: Owner.slot_in rest q s.cost
        else
          s :: Owner.slot_in rest p c
    else s :: Owner.slot_in rest p c

def Owner.remaining_picks (o : Owner) : Int := o.remaining_picks_cache

def Owner.max_bid (o : Owner) : Int := (o.money + 1) - o.remaining_picks

def Owner.owns (o : Owner) (p : Player) : Bool :=
  decide (p.player_id ∈ o.owned_player_ids)

/-- The guard of `Owner.buy`'s second branch: some empty roster slot accepts
the player. -/
def Owner.hasOpenSlotFor (o : Owner) (p : Player) : Bool :=
  o.roster.any (fun s => s.accepts p && s.occupant.isNone)

/-- The method `Owner.buy` of `owner.py`. -/
def Owner.buy (o : Owner) (p : Player) (cost : Int) : Except PyExc Owner :=
  if o.max_bid < cost then .error .insufficientFunds
  else if !(o.hasOpenSlotFor p) then .error .noValidRosterSlot
  else if o.owns p then .error .alreadyPurchased
  else .ok { o with
    money := o.money - cost,
    remaining_picks_cache := o.remaining_picks_cache - 1,
    owned_player_ids := insert p.player_id o.owned_player_ids,
    roster := Owner.slot_in o.roster p cost }

def Owner.can_buy (o : Owner) (p : Player) (bid : Int) : Bool :=
  o.hasOpenSlotFor p && decide (bid ≤ o.max_bid) && !(o.owns p)

/-- Driver: perform a sequence of purchases through `Owner.buy`, stopping at
the first failure. -/
def Owner.buySeq (o : Owner) : List (Player × Int) → Except PyExc Owner
  | [] => .ok o
  | pc :: rest =>
    match o.buy pc.1 pc.2 with
    | .ok o2 => o2.buySeq rest
    | .error e => .error e

/-- Sum of the costs recorded in the occupied slots of a roster (the spec's
"sum of cost of all purchases"). -/
def rosterCostSum (r : List OwnerRosterSlot) : Int :=
  r.foldl (fun acc s => match s.occupant with | some _ => acc + s.cost | none => acc) 0

/-! Concrete players and owners used in scenarios. -/

def pRB9 : Player := ⟨"RB9", .RB, 9, 0⟩
def pRB4 : Player := ⟨"RB4", .RB, 4, 1⟩
def pWR10 : Player := ⟨"WR10", .WR, 10, 2⟩
def pWR5a : Player := ⟨"WR5a", .WR, 5, 10⟩
def pWR5b : Player := ⟨"WR5b", .WR, 5, 11⟩
def pQB10 : Player := ⟨"QB10", .QB, 10, 20⟩

/-- Owner with $20 and three open slots (for the max-bid boundary scenario). -/
def ownerTwenty : Owner := Owner.init 20 [RosterSlot.QB, RosterSlot.RB, RosterSlot.WR] 7

/-- Owner exhibiting the eviction-cascade drop: roster RB, WR/RB, WR/TE. -/
def ownerDropStart : Owner :=
  Owner.init 100 [RosterSlot.RB, RosterSlot.WRRB, RosterSlot.WRTE] 0

/-- Buying RB(9), then RB(4), then WR(10): the WR evicts the RB(4) from the
WR/RB flex slot, and no later slot accepts an RB, so the evicted player and
its recorded cost are silently dropped. -/
def ownerDropRun : Except PyExc Owner :=
  (ownerDropStart.buy pRB9 9).bind fun o =>
    (o.buy pRB4 4).bind fun o2 => o2.buy pWR10 10

/-- Owner used for the order-dependence counterexample: roster WR, BN. -/
def ownerPairStart : Owner := Owner.init 10 [RosterSlot.WR, RosterSlot.BN] 3

/-! ## The auction engine of `auction.py` (including its own `Owner` class) -/

/-- Python `%` on naturals: raises `ZeroDivisionError` on a zero divisor. -/
def pyMod (a b : Nat) : Except PyExc Nat :=
  if b = 0 then .error .zeroDivisionError else .ok (a % b)

/-- Python `list.remove(v)`: drop the first element equal (by `Player.__eq__`)
to `v`, raising `ValueError` when none is. -/
def pyRemove : List Player → Player → Except PyExc (List Player)
  | [], _ => .error .valueError
  | x :: rest, p =>
    if x.pyEq p then .ok rest else (pyRemove rest p).map (fun l => x :: l)

namespace Auc

/-- The `OwnerRosterSlot` as defined inside `auction.py` (no cost field). -/
structure OwnerRosterSlot where
  positions : List Position
  abbreviation : String
  occupant : Option Player
deriving DecidableEq, Repr, Inhabited

def OwnerRosterSlot.accepts (s : OwnerRosterSlot) (p : Player) : Bool :=
  s.positions.contains p.position

def OwnerRosterSlot.num_accepted (s : OwnerRosterSlot) : Nat := s.positions.length

def OwnerRosterSlot.from_roster_slot (rs : RosterSlot) : OwnerRosterSlot :=
  ⟨rs.positions, rs.abbreviation, none⟩

/-- The `Owner` class defined inside `auction.py` (the one `Auction` uses). -/
structure Owner where
  money : Int
  roster : List OwnerRosterSlot
  id : Nat
deriving DecidableEq, Repr, Inhabited

def Owner.init (money : Int) (roster : List RosterSlot) (owner_id : Nat) : Owner :=
  let r := stableSortBy (fun a b => decide (a.num_accepted < b.num_accepted))
    (roster.map OwnerRosterSlot.from_roster_slot)
  { money := money, roster := r, id := owner_id }

/-- The method `Owner._is_owned` of `auction.py`: compares each slot's occupant with the
player via `Player.__eq__`. -/
def Owner.is_owned (o : Owner) (p : Player) : Bool :=
  o.roster.any (fun s => match s.occupant with | some q => q.pyEq p | none => false)

/-- The method `Owner.remaining_picks` of `auction.py`: counted from the roster. -/
def Owner.remaining_picks (o : Owner) : Int :=
  ((o.roster.filter (fun s => s.occupant.isNone)).length : Int)

def Owner.max_bid (o : Owner) : Int := (o.money + 1) - o.remaining_picks

/-- One pass of the `for` loop of `auction.py`'s `Owner._slot_in`: place the
player at the first accepting slot that is empty (second component `none`) or
holds a strictly lower-valued occupant (second component returns the evicted
occupant, on which the Python code recurses over the whole roster). -/
def slotPass : List OwnerRosterSlot → Player → (List OwnerRosterSlot × Option Player)
  | [], _ => ([], none)
  | s :: rest, p =>
    if s.accepts p then
      match s.occupant with
      | none => ({ s with occupant := some p } :: rest, none)
      | some q =>
        if q.value < p.value then ({ s with occupant := some p } :: rest, some q)
        else
          let r := slotPass rest p
          (s :: r.1, r.2)
    else
      let r := slotPass rest p
      (s :: r.1, r.2)

/-- The recursive `Owner._slot_in` of `auction.py`, driven by fuel: each eviction
strictly decreases the number of occupants with value below the carried
player's, which is bounded by the roster length, so `roster.length` evictions
always suffice. -/
def Owner.slot_in_fuel : Nat → List OwnerRosterSlot → Player → List OwnerRosterSlot
  | 0, r, p => (slotPass r p).1
  | fuel + 1, r, p =>
    match slotPass r p with
    | (r2, none) => r2
    | (r2, some q) => Owner.slot_in_fuel fuel r2 q

def Owner.slot_in (r : List OwnerRosterSlot) (p : Player) : List OwnerRosterSlot :=
  Owner.slot_in_fuel r.length r p

/-- The method `Owner.buy` of `auction.py`. -/
def Owner.buy (o : Owner) (p : Player) (cost : Int) : Except PyExc Owner :=
  if o.max_bid < cost then .error .insufficientFunds
  else if !(o.roster.any (fun s => s.accepts p && s.occupant.isNone)) then
    .error .noValidRosterSlot
  else if o.is_owned p then .error .alreadyPurchased
  else .ok { o with money := o.money - cost, roster := Owner.slot_in o.roster p }

/-- The method `Owner.can_buy` of `auction.py`: note it does NOT require the accepting
slot to be empty (unlike `owner.py`'s version). -/
def Owner.can_buy (o : Owner) (p : Player) (bid : Int) : Bool :=
  (o.roster.any (fun s => s.accepts p)) && decide (bid ≤ o.max_bid) && !(o.is_owned p)

inductive AuctionState where
  | NOMINATE | BID | DONE
deriving DecidableEq, Repr, Inhabited

/-- The `Auction` class.  `bid` is Python's `self.bid`, which `__init__` never
assigns; it is modelled as `0`, and along the public API it is always assigned
(by `nominate` or a nominate-phase `tick`) before it is read. -/
structure Auction where
  owners : List Owner
  players : List Player
  undrafted_players : List Player
  money : Int
  roster : List RosterSlot
  state : AuctionState
  turn_index : Nat
  nominee : Option Player
  bid : Int
  tickbids : List Int
  bids : List Int
deriving DecidableEq, Repr, Inhabited

def Auction.init (players : List Player) (num_owners : Nat) (money : Int)
    (roster : List RosterSlot) : Auction :=
  { owners := (List.range num_owners).map (fun i => Owner.init money roster i),
    players := players,
    undrafted_players := stableSortBy (fun a b => decide (b.value < a.value)) players,
    money := money, roster := roster, state := .NOMINATE, turn_index := 0,
    nominee := none, bid := 0,
    tickbids := List.replicate num_owners 0,
    bids := List.replicate num_owners 0 }

/-- The scan of `Auction._winning_owner`: running maximum (seeded with price
`0`), strict comparison, so the FIRST index attaining the maximum wins;
`none` models the `assert winner_idx > -1` failing. -/
def winningScan : List Int → Nat → Int → Option Nat → Option Nat
  | [], _, _, w => w
  | b :: rest, i, price, w =>
    if price < b then winningScan rest (i + 1) b (some i)
    else winningScan rest (i + 1) price w

def winning_owner_idx (bids : List Int) : Option Nat := winningScan bids 0 0 none

/-- Python `max` on a (nonempty) list; `0` on `[]`, which the code never hits. -/
def pyMax : List Int → Int
  | [] => 0
  | x :: xs => xs.foldl max x

/-- Python's `[i for i, bid in enumerate(tickbids) if bid == max(tickbids)]`. -/
def topIdxs (l : List Int) : List Nat :=
  (List.range l.length).filter (fun i => decide (l.getD i 0 = pyMax l))

/-- The method `Auction.tick`.  Here `k` models the draw of `random.choice`: the choice made
is `top_idxs[k % len(top_idxs)]`, which reaches every candidate.  The NOMINATE
branch can raise in Python's statement order: `undrafted_players[0]` (when no
nominee is set) raises IndexError on an empty pool, and the final
`turn_index + 1 % len(owners)` raises ZeroDivisionError for a zero-owner
auction.  A raise is modelled as `.error` discarding the fields Python has
already assigned by that point; the exception propagates out of the call
either way, and no claim observes the partially mutated object. -/
def Auction.tick (a : Auction) (k : Nat) : Except PyExc Auction :=
  match a.state with
  | .NOMINATE =>
    match a.nominee with
    | some _ =>
      match pyMod 1 a.owners.length with
      | .error e => .error e
      | .ok m =>
        .ok { a with
          state := .BID,
          bids := (List.range a.owners.length).map
            (fun i => if i = a.turn_index then a.bid else 0),
          tickbids := List.replicate a.owners.length 0,
          turn_index := a.turn_index + m }
    | none =>
      match a.undrafted_players with
      | [] => .error .indexError
      | p :: _ =>
        match pyMod 1 a.owners.length with
        | .error e => .error e
        | .ok m =>
          .ok { a with
            nominee := some p,
            bid := 1,
            state := .BID,
            bids := (List.range a.owners.length).map
              (fun i => if i = a.turn_index then (1 : Int) else 0),
            tickbids := List.replicate a.owners.length 0,
            turn_index := a.turn_index + m }
  | .BID =>
    if a.tickbids.any (fun b => decide (0 < b)) then
      let tops := topIdxs a.tickbids
      let accept := tops.getD (k % tops.length) 0
      let newbid := a.tickbids.getD accept 0
      .ok { a with
        bid := newbid,
        bids := a.bids.set accept newbid,
        tickbids := List.replicate a.owners.length 0 }
    else
      match winning_owner_idx a.bids with
      | none => .error .assertionError
      | some w =>
        match a.owners.get? w with
        | none => .error .indexError
        | some ow =>
          match a.nominee with
          | none => .error .attributeError
          | some nom =>
            match ow.buy nom a.bid with
            | .error e => .error e
            | .ok ow2 =>
              match pyRemove a.undrafted_players nom with
              | .error e => .error e
              | .ok und =>
                let owners2 := a.owners.set w ow2
                .ok { a with
                  owners := owners2,
                  undrafted_players := und,
                  nominee := none,
                  state := if owners2.any (fun o => decide (0 < o.remaining_picks))
                    then .NOMINATE else .DONE }
  | .DONE => .ok a

/-- The method `Auction.place_bid`.  Note `self.tickbids[owner_id]` is read before the
`can_buy` check, and the bid comparison rejects only `bid < self.bid`. -/
def Auction.place_bid (a : Auction) (owner_id : Nat) (bid : Int) :
    Except PyExc (Bool × Auction) :=
  if a.state ≠ .BID then .ok (false, a)
  else if bid < a.bid then .ok (false, a)
  else
    match a.tickbids.get? owner_id with
    | none => .error .indexError
    | some tb =>
      if 0 < tb then .ok (false, a)
      else
        match a.owners.get? owner_id with
        | none => .error .indexError
        | some ow =>
          match a.nominee with
          | none => .error .attributeError
          | some nom =>
            if !(ow.can_buy nom bid) then .ok (false, a)
            else .ok (true, { a with tickbids := a.tickbids.set owner_id bid })

/-- The method `Auction.nominate`.  Both `self.owners[owner_id]` and `self.players[player_idx]`
are evaluated before any legality check. -/
def Auction.nominate (a : Auction) (owner_id player_idx : Nat) (bid : Int) :
    Except PyExc (Bool × Auction) :=
  match a.owners.get? owner_id with
  | none => .error .indexError
  | some owner =>
    match a.players.get? player_idx with
    | none => .error .indexError
    | some nominated =>
      if a.state ≠ .NOMINATE then .ok (false, a)
      else if !(a.undrafted_players.any (fun q => q.pyEq nominated)) then .ok (false, a)
      else if owner_id ≠ a.turn_index then .ok (false, a)
      else if owner.max_bid < bid then .ok (false, a)
      else if a.nominee.isSome then .ok (false, a)
      else if bid < 1 then .ok (false, a)
      else if !(a.owners.any (fun o => o.can_buy nominated bid)) then .ok (false, a)
      else .ok (true, { a with nominee := some nominated, bid := bid })

end Auc

/-! A concrete game driven through the public API: two owners, $10 each, one
bench slot each, two quarterbacks. -/

def p1T : Player := ⟨"T1", .QB, 2, 100⟩
def p2T : Player := ⟨"T2", .QB, 1, 101⟩

/-- Extract the auction from a step result (`default` is never used below:
every extraction is certified by an `= .ok _` conjunct in the theorems). -/
def exA (x : Except PyExc Auc.Auction) : Auc.Auction :=
  match x with | .ok a => a | .error _ => default

def auc0 : Auc.Auction := Auc.Auction.init [p1T, p2T] 2 10 [RosterSlot.BN]
def nom1 : Except PyExc (Bool × Auc.Auction) := auc0.nominate 0 0 1
def auc1 : Auc.Auction := exA (nom1.map Prod.snd)
def auc2 : Auc.Auction := exA (auc1.tick 0)
def pb1 : Except PyExc (Bool × Auc.Auction) := auc2.place_bid 1 2
def auc3 : Auc.Auction := exA (pb1.map Prod.snd)
def auc4 : Auc.Auction := exA (auc3.tick 0)
def auc5 : Auc.Auction := exA (auc4.tick 0)
def nom2 : Except PyExc (Bool × Auc.Auction) := auc5.nominate 1 1 1
def auc6 : Auc.Auction := exA (nom2.map Prod.snd)
def auc7 : Auc.Auction := exA (auc6.tick 0)

/-- Owner 1 of the trace game just before it wins the first settlement. -/
def aucOwner1Before : Auc.Owner := Auc.Owner.init 10 [RosterSlot.BN] 1

/-- Owner 1 of the trace game just after buying `p1T` for $2. -/
def aucOwner1After : Auc.Owner :=
  { money := 8, roster := [⟨RosterSlot.BN.positions, "BN", some p1T⟩], id := 1 }

/-- The occupants of a roster, in slot order. -/
def occs (r : List OwnerRosterSlot) : List Player :=
  r.filterMap (fun s => s.occupant)

/-- The values of the occupants of a roster, in slot order. -/
def vals (r : List OwnerRosterSlot) : List Int :=
  (occs r).map (fun p => p.value)

/-- Spec-side slot-pair check for "higher-value players occupy the most
specific eligible slots": whenever the later (less specific) slot `s2` holds a
player that the earlier slot `s` accepts, `s` holds a strictly higher-valued
player. -/
def slotOkB (s s2 : OwnerRosterSlot) : Bool :=
  match s2.occupant with
  | none => true
  | some q =>
    if q.position ∈ s.positions then
      match s.occupant with
      | none => false
      | some z => decide (q.value < z.value)
    else true

/-- A roster is ordered when every pair (more specific slot, less specific
slot) satisfies `slotOkB`: no occupant could sit in an earlier eligible slot,
because every earlier eligible slot holds a strictly higher-valued player. -/
def rosterOrdered (r : List OwnerRosterSlot) : Prop :=
  r.Pairwise (fun s s2 => slotOkB s s2 = true)

/-- Fold of `Owner._slot_in` over a list of (player, cost) purchases. -/
def insFold (r : List OwnerRosterSlot) (l : List (Player × Int)) : List OwnerRosterSlot :=
  l.foldl (fun acc pc => Owner.slot_in acc pc.1 pc.2) r

/-- Total cost of a purchase list. -/
def sumCostsL (l : List (Player × Int)) : Int := (l.map (fun pc => pc.2)).sum

def pWR7 : Player := ⟨"WR7", .WR, 7, 12⟩

instance : Inhabited Owner := ⟨⟨0, [], 0, 0, ∅⟩⟩

/-- Extract the owner from a purchase-sequence result. -/
def exO (x : Except PyExc Owner) : Owner :=
  match x with | .ok o => o | .error _ => default

/-- Final owner after buying WR(10) then WR(7) on the WR+BN roster. -/
def ownerPairRes1 : Owner := exO (ownerPairStart.buySeq [(pWR10, 1), (pWR7, 2)])

/-- Final owner after buying WR(7) then WR(10) on the WR+BN roster. -/
def ownerPairRes2 : Owner := exO (ownerPairStart.buySeq [(pWR7, 2), (pWR10, 1)])

/-- Predicate `headOk s q`: if slot `s` accepts player `q`, then `s` holds a strictly
higher-valued occupant (used to state `slotOkB` pointwise over occupants). -/
def headOk (s : OwnerRosterSlot) (q : Player) : Prop :=
  q.position ∈ s.positions → ∃ z, s.occupant = some z ∧ q.value < z.value

/-! ## Theorems -/

/-- C4: `max_bid()` equals `(money + 1) - remaining_picks()`, and the boundary
scenario: an owner with $20 and 3 open slots has `max_bid() = 18`, and after
buying one player for $5 it has `max_bid() = 14`. -/
theorem C4_max_bid_exact :
    (∀ o : Owner, o.max_bid = (o.money + 1) - o.remaining_picks)
    ∧ ownerTwenty.max_bid = 18
    ∧ (ownerTwenty.buy pQB10 5).map Owner.max_bid = .ok 14 := by
  refine ⟨fun o => rfl, by decide, by decide⟩

/-- C3 (amended): `buy` fails with `insufficientFunds` exactly when
`cost > max_bid()`; with `noValidRosterSlot` exactly when `cost ≤ max_bid()`
and no empty slot accepts the player; with `alreadyPurchased` exactly when
`cost ≤ max_bid()`, some empty slot accepts the player, and the player is
already owned; and on success money drops by exactly `cost` and the player
becomes owned. -/
theorem C3_buy_failure_modes (o : Owner) (p : Player) (c : Int) :
    (o.buy p c = .error .insufficientFunds ↔ o.max_bid < c)
    ∧ (o.buy p c = .error .noValidRosterSlot ↔
        c ≤ o.max_bid ∧ o.hasOpenSlotFor p = false)
    ∧ (o.buy p c = .error .alreadyPurchased ↔
        c ≤ o.max_bid ∧ o.hasOpenSlotFor p = true ∧ o.owns p = true)
    ∧ (∀ o2, o.buy p c = .ok o2 → o2.money = o.money - c ∧ o2.owns p = true) := by
  by_cases h1 : o.max_bid < c
  · have hbuy : o.buy p c = .error .insufficientFunds := by
      unfold Owner.buy; simp [h1]
    rw [hbuy]
    refine ⟨⟨fun _ => h1, fun _ => rfl⟩, ⟨?_, ?_⟩, ⟨?_, ?_⟩, ?_⟩
    · intro h; simp at h
    · rintro ⟨hc, -⟩; exact absurd h1 (by omega)
    · intro h; simp at h
    · rintro ⟨hc, -⟩; exact absurd h1 (by omega)
    · intro o2 h; simp at h
  · by_cases h2 : o.hasOpenSlotFor p
    · by_cases h3 : o.owns p
      · have hbuy : o.buy p c = .error .alreadyPurchased := by
          unfold Owner.buy; simp [h1, h2, h3]
        rw [hbuy]
        refine ⟨⟨?_, ?_⟩, ⟨?_, ?_⟩, ⟨?_, ?_⟩, ?_⟩
        · intro h; simp at h
        · intro hlt; exact absurd hlt h1
        · intro h; simp at h
        · rintro ⟨-, hopen⟩; rw [h2] at hopen; cases hopen
        · intro _; exact ⟨by omega, h2, h3⟩
        · intro _; rfl
        · intro o2 h; simp at h
      · have hbuy : o.buy p c = .ok { o with
            money := o.money - c,
            remaining_picks_cache := o.remaining_picks_cache - 1,
            owned_player_ids := insert p.player_id o.owned_player_ids,
            roster := Owner.slot_in o.roster p c } := by
          unfold Owner.buy
          simp only [Bool.not_eq_true] at h3
          simp [h1, h2, h3]
        rw [hbuy]
        refine ⟨⟨?_, ?_⟩, ⟨?_, ?_⟩, ⟨?_, ?_⟩, ?_⟩
        · intro h; simp at h
        · intro hlt; exact absurd hlt h1
        · intro h; simp at h
        · rintro ⟨-, hopen⟩; rw [h2] at hopen; cases hopen
        · intro h; simp at h
        · rintro ⟨-, -, howns⟩; exact absurd howns h3
        · intro o2 h
          injection h with h
          subst h
          exact ⟨rfl, by simp [Owner.owns]⟩
    · simp only [Bool.not_eq_true] at h2
      have hbuy : o.buy p c = .error .noValidRosterSlot := by
        unfold Owner.buy; simp [h1, h2]
      rw [hbuy]
      refine ⟨⟨?_, ?_⟩, ⟨?_, ?_⟩, ⟨?_, ?_⟩, ?_⟩
      · intro h; simp at h
      · intro hlt; exact absurd hlt h1
      · intro _; exact ⟨by omega, h2⟩
      · intro _; rfl
      · intro h; simp at h
      · rintro ⟨-, hopen, -⟩; rw [h2] at hopen; cases hopen
      · intro o2 h; simp at h

theorem C3_buy_failure_modes_witness :
    (Owner.init 5 [RosterSlot.BN] 0).buy pQB10 9 = .error .insufficientFunds :=
  ((C3_buy_failure_modes (Owner.init 5 [RosterSlot.BN] 0) pQB10 9).1).mpr (by decide)

/-- C3 counterexample: an owner who already owns the player but whose funds are
also insufficient gets `insufficientFunds`, not `alreadyPurchased`; so
"fails with AlreadyPurchased when the player is already owned" is false as
stated. -/
theorem C3_owned_but_insufficient_funds :
    ((Owner.init 5 [RosterSlot.BN, RosterSlot.BN] 0).buy pQB10 1).map
        (fun o => (o.owns pQB10, decide (o.max_bid < 5), o.buy pQB10 5))
      = .ok (true, true, .error .insufficientFunds) := by
  decide

/-- C9: the code violates funds conservation.  After successfully buying
RB(9) for $9, RB(4) for $4 and WR(10) for $10 (every purchase passing all of
`buy`'s checks), the eviction cascade drops the evicted RB(4) — no slot after
the WR/RB flex slot accepts an RB — so `startingMoney - money = 23` while the
costs recorded in occupied slots sum to `19`. -/
theorem C9_funds_conservation_violated :
    ownerDropRun.map (fun o => (100 - o.money, rosterCostSum o.roster, o.owns pRB4))
      = .ok (23, 19, true) ∧ (23 : Int) ≠ 19 := by
  refine ⟨by decide, by decide⟩

/-- C5 counterexample: two players of equal value legally bought in the two
possible orders produce different final seatings, so the final assignment is
not identical regardless of order. -/
theorem C5_equal_values_order_dependent :
    ownerPairStart.buySeq [(pWR5a, 1), (pWR5b, 1)]
        ≠ ownerPairStart.buySeq [(pWR5b, 1), (pWR5a, 1)]
    ∧ (ownerPairStart.buySeq [(pWR5a, 1), (pWR5b, 1)]).isOk = true
    ∧ (ownerPairStart.buySeq [(pWR5b, 1), (pWR5a, 1)]).isOk = true
    ∧ [(pWR5a, (1 : Int)), (pWR5b, 1)].Perm [(pWR5b, 1), (pWR5a, 1)] := by
  refine ⟨by decide, by decide, by decide, .swap _ _ _⟩

/-! Helper lemmas about `_winning_owner`'s scan and `max`/`top_idxs`. -/

theorem winningScan_inv (l : List Int) : ∀ (i : Nat) (price : Int) (acc : Option Nat)
    (w : Nat) (f : Nat → Int),
    (∀ j, acc = some j → f j = price) →
    (∀ n, n < l.length → f (i + n) = l.getD n 0) →
    Auc.winningScan l i price acc = some w →
    price ≤ f w ∧ ∀ b ∈ l, b ≤ f w := by
  induction l with
  | nil =>
    intro i price acc w f hacc hl hscan
    have : acc = some w := hscan
    exact ⟨le_of_eq (hacc w this).symm, by simp⟩
  | cons b rest ih =>
    intro i price acc w f hacc hl hscan
    have hfb : f i = b := by
      have h0 := hl 0 (by simp)
      simpa using h0
    have hl2 : ∀ n, n < rest.length → f (i + 1 + n) = rest.getD n 0 := by
      intro n hn
      have h2 := hl (n + 1) (by simpa using Nat.succ_lt_succ hn)
      have he : i + (n + 1) = i + 1 + n := by omega
      rw [he] at h2
      simpa using h2
    rw [Auc.winningScan] at hscan
    by_cases hpb : price < b
    · rw [if_pos hpb] at hscan
      have hacc2 : ∀ j, (some i : Option Nat) = some j → f j = b := by
        intro j hj
        cases hj
        exact hfb
      obtain ⟨h1, h2⟩ := ih (i + 1) b (some i) w f hacc2 hl2 hscan
      refine ⟨le_trans (le_of_lt hpb) h1, ?_⟩
      intro x hx
      rcases List.mem_cons.mp hx with rfl | hx
      · exact h1
      · exact h2 x hx
    · rw [if_neg hpb] at hscan
      obtain ⟨h1, h2⟩ := ih (i + 1) price acc w f hacc hl2 hscan
      refine ⟨h1, ?_⟩
      intro x hx
      rcases List.mem_cons.mp hx with rfl | hx
      · exact le_trans (not_lt.mp hpb) h1
      · exact h2 x hx

/-- The index returned by `_winning_owner`'s scan carries the maximum entry of
the bids vector. -/
theorem winning_owner_idx_max (bids : List Int) (w : Nat)
    (h : Auc.winning_owner_idx bids = some w) :
    ∀ b ∈ bids, b ≤ bids.getD w 0 := by
  have hinv := winningScan_inv bids 0 0 none w (fun j => bids.getD j 0)
    (fun j hj => by cases hj) (fun n _ => by simp) h
  exact hinv.2

theorem foldl_max_mem : ∀ (xs : List Int) (x : Int), xs.foldl max x ∈ x :: xs := by
  intro xs
  induction xs with
  | nil => intro x; simp
  | cons y ys ih =>
    intro x
    have h := ih (max x y)
    rw [List.foldl_cons]
    rcases List.mem_cons.mp h with heq | hmem
    · rcases max_choice x y with h1 | h1 <;> rw [heq, h1] <;> simp
    · simp [List.mem_cons.mpr (Or.inr hmem)]

theorem foldl_max_le : ∀ (xs : List Int) (x b : Int), b ∈ x :: xs → b ≤ xs.foldl max x := by
  intro xs
  induction xs with
  | nil =>
    intro x b hb
    simp at hb
    simp [hb]
  | cons y ys ih =>
    intro x b hb
    rw [List.foldl_cons]
    have hseed : max x y ≤ ys.foldl max (max x y) :=
      ih (max x y) (max x y) (List.mem_cons_self _ _)
    rcases List.mem_cons.mp hb with rfl | hb2
    · exact le_trans (le_max_left _ _) hseed
    · rcases List.mem_cons.mp hb2 with rfl | hb3
      · exact le_trans (le_max_right _ _) hseed
      · exact ih (max x y) b (List.mem_cons_of_mem _ hb3)

theorem pyMax_mem (l : List Int) (h : l ≠ []) : Auc.pyMax l ∈ l := by
  cases l with
  | nil => exact absurd rfl h
  | cons x xs => exact foldl_max_mem xs x

theorem le_pyMax (l : List Int) (b : Int) (hb : b ∈ l) : b ≤ Auc.pyMax l := by
  cases l with
  | nil => cases hb
  | cons x xs => exact foldl_max_le xs x b hb

theorem mem_topIdxs (l : List Int) (i : Nat) :
    i ∈ Auc.topIdxs l ↔ i < l.length ∧ l.getD i 0 = Auc.pyMax l := by
  simp [Auc.topIdxs, List.mem_filter, List.mem_range]

theorem topIdxs_nodup (l : List Int) : (Auc.topIdxs l).Nodup :=
  (List.nodup_range _).filter _

theorem topIdxs_ne_nil (l : List Int) (h : l ≠ []) : Auc.topIdxs l ≠ [] := by
  have hm := pyMax_mem l h
  obtain ⟨i, hi, hget⟩ := List.getElem_of_mem hm
  have : i ∈ Auc.topIdxs l :=
    (mem_topIdxs l i).mpr ⟨hi, by rw [List.getD_eq_getElem l 0 hi, hget]⟩
  exact List.ne_nil_of_mem this

theorem getD_mod_mem {α : Type} [Inhabited α] (tops : List α) (h : tops ≠ []) (k : Nat) :
    tops.getD (k % tops.length) default ∈ tops := by
  have hlen : 0 < tops.length := List.length_pos.mpr h
  have hlt : k % tops.length < tops.length := Nat.mod_lt _ hlen
  rw [List.getD_eq_getElem tops default hlt]
  exact List.getElem_mem hlt

theorem getD_mod_surj {α : Type} [Inhabited α] (tops : List α) (j : α) (hj : j ∈ tops) :
    ∃ k2, tops.getD (k2 % tops.length) default = j := by
  obtain ⟨i, hi, hget⟩ := List.getElem_of_mem hj
  refine ⟨i, ?_⟩
  rw [Nat.mod_eq_of_lt hi, List.getD_eq_getElem tops default hi, hget]

theorem any_pos_ne_nil (l : List Int) (h : l.any (fun b => decide (0 < b)) = true) :
    l ≠ [] := by
  intro he
  subst he
  simp at h

theorem aucRemainingNonneg (o : Auc.Owner) : 0 ≤ o.remaining_picks :=
  Int.natCast_nonneg _

/-- C8: in state BID with a nonzero submission, `tick` accepts the submission
at index `top_idxs[k % len]` where `top_idxs` enumerates (without duplicates,
each reachable by some draw `k`) exactly the indices whose submission equals
the tick's maximum; the current bid becomes that maximum, the latest-bid
vector is updated at the accepted index, the submissions vector is reset to
zeros, and the state (and every other field) stays as it was, i.e. BID. -/
theorem C8_tick_accepts_max_submission (a : Auc.Auction) (k : Nat)
    (hs : a.state = .BID)
    (hb : a.tickbids.any (fun b => decide (0 < b)) = true) :
    a.tick k = .ok { a with
      bid := Auc.pyMax a.tickbids,
      bids := a.bids.set
        ((Auc.topIdxs a.tickbids).getD (k % (Auc.topIdxs a.tickbids).length) 0)
        (Auc.pyMax a.tickbids),
      tickbids := List.replicate a.owners.length 0 }
    ∧ (Auc.topIdxs a.tickbids).getD (k % (Auc.topIdxs a.tickbids).length) 0
        ∈ Auc.topIdxs a.tickbids
    ∧ (∀ i, i ∈ Auc.topIdxs a.tickbids ↔
        i < a.tickbids.length ∧ a.tickbids.getD i 0 = Auc.pyMax a.tickbids)
    ∧ (Auc.topIdxs a.tickbids).Nodup
    ∧ (∀ j ∈ Auc.topIdxs a.tickbids, ∃ k2,
        (Auc.topIdxs a.tickbids).getD (k2 % (Auc.topIdxs a.tickbids).length) 0 = j) := by
  have hne := any_pos_ne_nil _ hb
  have htne := topIdxs_ne_nil _ hne
  have haccept := getD_mod_mem (Auc.topIdxs a.tickbids) htne k
  have hgetmax : a.tickbids.getD
      ((Auc.topIdxs a.tickbids).getD (k % (Auc.topIdxs a.tickbids).length) 0) 0
      = Auc.pyMax a.tickbids := ((mem_topIdxs _ _).mp haccept).2
  refine ⟨?_, haccept, fun i => mem_topIdxs _ i, topIdxs_nodup _,
    fun j hj => getD_mod_surj _ j hj⟩
  simp only [Auc.Auction.tick, hs, hb, if_true, hgetmax]

/-- C1 (amended): in state BID with no nonzero submission this tick, when the
winning owner's `buy` succeeds, `tick` performs settlement: the winner — the
owner carrying the highest entry of the latest-bid vector (third conjunct) —
is replaced by the result of `buy(nominee, current_bid)`, the nominee is
removed from the undrafted pool and cleared, and the resulting state is DONE
exactly when every owner has `remaining_picks() = 0` (second conjunct),
NOMINATE otherwise. -/
theorem C1_tick_settlement (a : Auc.Auction) (k : Nat) (w : Nat)
    (ow ow2 : Auc.Owner) (p : Player) (und : List Player)
    (hs : a.state = .BID)
    (hnb : a.tickbids.any (fun b => decide (0 < b)) = false)
    (hw : Auc.winning_owner_idx a.bids = some w)
    (how : a.owners.get? w = some ow)
    (hp : a.nominee = some p)
    (hbuy : ow.buy p a.bid = .ok ow2)
    (hrm : pyRemove a.undrafted_players p = .ok und) :
    a.tick k = .ok { a with
      owners := a.owners.set w ow2,
      undrafted_players := und,
      nominee := none,
      state := if (a.owners.set w ow2).any (fun o => decide (0 < o.remaining_picks))
        then .NOMINATE else .DONE }
    ∧ ((a.tick k).map Auc.Auction.state = .ok .DONE ↔
        ∀ o ∈ a.owners.set w ow2, o.remaining_picks = 0)
    ∧ (∀ b ∈ a.bids, b ≤ a.bids.getD w 0) := by
  have htick : a.tick k = .ok { a with
      owners := a.owners.set w ow2,
      undrafted_players := und,
      nominee := none,
      state := if (a.owners.set w ow2).any (fun o => decide (0 < o.remaining_picks))
        then .NOMINATE else .DONE } := by
    simp only [Auc.Auction.tick, hs, hnb, hw, how, hp, hbuy, hrm]
    simp
  refine ⟨htick, ?_, winning_owner_idx_max _ _ hw⟩
  rw [htick]
  simp only [Except.map]
  constructor
  · intro h
    injection h with h
    by_cases hc : (a.owners.set w ow2).any (fun o => decide (0 < o.remaining_picks))
    · rw [if_pos hc] at h
      cases h
    · intro o ho
      have h2 := List.any_eq_false.mp (Bool.not_eq_true _ ▸ hc) o ho
      have h3 : ¬ (0 < o.remaining_picks) := by simpa using h2
      have h4 := aucRemainingNonneg o
      omega
  · intro hall
    have hc : (a.owners.set w ow2).any (fun o => decide (0 < o.remaining_picks)) = false := by
      apply List.any_eq_false.mpr
      intro o ho
      simp [hall o ho]
    rw [hc]
    simp

theorem C1_tick_settlement_witness :
    auc4.tick 0 = .ok { auc4 with
      owners := auc4.owners.set 1 aucOwner1After,
      undrafted_players := [p2T],
      nominee := none,
      state := if (auc4.owners.set 1 aucOwner1After).any
          (fun o => decide (0 < o.remaining_picks))
        then .NOMINATE else .DONE } :=
  (C1_tick_settlement auc4 0 1 aucOwner1Before aucOwner1After p1T [p2T]
    (by decide) (by decide) (by decide) (by decide) (by decide) (by decide)
    (by decide)).1

/-- C1 counterexample: a reachable BID state with no nonzero submissions in
which `tick` does NOT settle: the winning owner's roster is full (its bid was
accepted because `auction.py`'s `can_buy` does not require an empty slot), so
`buy` raises and the nominee is neither removed nor cleared. -/
theorem C1_settlement_can_raise :
    auc6.tick 0 = .ok auc7
    ∧ auc7.state = .BID
    ∧ auc7.tickbids = [0, 0]
    ∧ auc7.tick 0 = .error .noValidRosterSlot := by
  exact ⟨by decide, by decide, by decide, by decide⟩

/-- C2: the code violates the turn invariant.  In the game traced through the
public API (`auc0` … `auc7`), after the first settlement the state is NOMINATE
with `turn_index = 1` while owner 1 has `remaining_picks() = 0` (its single
slot was just filled); and after the second nomination tick `turn_index = 2`,
out of range for the 2 owners: `turn_index + 1 % len(owners)` adds `1 % n`,
never wrapping and never skipping full owners. -/
theorem C2_turn_invariant_violated :
    nom1 = .ok (true, auc1)
    ∧ auc1.tick 0 = .ok auc2
    ∧ pb1 = .ok (true, auc3)
    ∧ auc3.tick 0 = .ok auc4
    ∧ auc4.tick 0 = .ok auc5
    ∧ auc5.state = .NOMINATE
    ∧ auc5.turn_index = 1
    ∧ (auc5.owners.getD 1 default).remaining_picks = 0
    ∧ nom2 = .ok (true, auc6)
    ∧ auc6.tick 0 = .ok auc7
    ∧ auc7.state = .BID
    ∧ auc7.turn_index = 2
    ∧ auc7.owners.length = 2 := by
  exact ⟨by decide, by decide, by decide, by decide, by decide, by decide,
    by decide, by decide, by decide, by decide, by decide, by decide, by decide⟩

/-- C6 counterexample: in a reachable BID state with current accepted bid 1, a
`place_bid` of exactly 1 (equal, not strictly greater) returns True and
records the bid into `tickbids` — the code rejects only `bid < self.bid`. -/
theorem C6_equal_bid_is_recorded :
    auc2.state = .BID
    ∧ auc2.bid = 1
    ∧ auc2.tickbids = [0, 0]
    ∧ (auc2.place_bid 1 1).map (fun r => (r.1, r.2.tickbids)) = .ok (true, [0, 1]) := by
  exact ⟨by decide, by decide, by decide, by decide⟩

/-- C6 (amended): in state BID, `place_bid` with `bid` strictly below the
current accepted bid returns failure (False) and leaves the whole auction —
in particular `bids` and `tickbids` — unchanged; and a recorded bid (True
result) requires `bid ≥` the current accepted bid and changes only
`tickbids[owner_id]`. -/
theorem C6_place_bid_threshold (a : Auc.Auction) (oid : Nat) (bid : Int)
    (hs : a.state = .BID) :
    (bid < a.bid → a.place_bid oid bid = .ok (false, a))
    ∧ (∀ a2, a.place_bid oid bid = .ok (true, a2) →
        a.bid ≤ bid ∧ a2 = { a with tickbids := a.tickbids.set oid bid }) := by
  constructor
  · intro hlt
    simp [Auc.Auction.place_bid, hs, hlt]
  · intro a2 h
    simp only [Auc.Auction.place_bid, hs, List.get?_eq_getElem?] at h
    by_cases hlt : bid < a.bid
    · simp [hlt] at h
    · refine ⟨by omega, ?_⟩
      rw [hs]
      simp only [hlt, ite_false] at h
      rcases hget : a.tickbids[oid]? with _ | tb
      · simp [hget] at h
      · simp only [hget] at h
        by_cases htb : 0 < tb
        · simp [htb] at h
        · rw [if_neg htb] at h
          rcases hown : a.owners[oid]? with _ | ow
          · simp [hown] at h
          · simp only [hown] at h
            rcases hnom : a.nominee with _ | nom
            · simp [hnom] at h
            · simp only [hnom] at h
              by_cases hcb : ow.can_buy nom bid
              · simp only [hcb, Bool.not_true, Bool.false_eq_true, ite_false] at h
                injection h with h
                injection h with h1 h2
                exact h2.symm
              · simp only [Bool.not_eq_true] at hcb
                simp [hcb] at h

theorem C6_place_bid_threshold_witness :
    auc2.place_bid 1 0 = .ok (false, auc2) :=
  (C6_place_bid_threshold auc2 1 0 (by decide)).1 (by decide)

/-- C7 counterexample: `tick()` in NOMINATE with no nominee does not fail — it
silently auto-nominates the highest-valued undrafted player at bid 1 and moves
to BID. -/
theorem C7_tick_without_nominee_succeeds :
    auc0.state = .NOMINATE
    ∧ auc0.nominee = none
    ∧ (auc0.tick 0).map (fun a => (a.state, a.nominee, a.bid)) = .ok (.BID, some p1T, 1)
    ∧ auc0.undrafted_players.get? 0 = some p1T := by
  exact ⟨by decide, by decide, by decide, by decide⟩

/-- C7 (amended): `tick()` in NOMINATE with no nominee set is not treated as
an error condition: with at least one owner and a nonempty undrafted pool it
silently auto-nominates the head of the undrafted pool (the highest-valued
undrafted player) at bid 1 and proceeds like a normal nomination tick; the
only failures are incidental, an IndexError on an empty undrafted pool
(checked first) and a ZeroDivisionError from the turn-advance expression
`turn_index + 1 % len(owners)` when the auction has zero owners.  With a
nominee set and at least one owner, the tick transitions to BID, seeds the
latest-bid vector with the nominator's bid at `turn_index` and zero
elsewhere, and clears the submissions vector. -/
theorem C7_tick_nominate_transition (a : Auc.Auction) (k : Nat)
    (hs : a.state = .NOMINATE) :
    (∀ p, a.nominee = some p → a.owners ≠ [] →
      a.tick k = .ok { a with
        state := .BID,
        bids := (List.range a.owners.length).map
          (fun i => if i = a.turn_index then a.bid else 0),
        tickbids := List.replicate a.owners.length 0,
        turn_index := a.turn_index + 1 % a.owners.length })
    ∧ (a.nominee = none → ∀ p rest, a.undrafted_players = p :: rest → a.owners ≠ [] →
      a.tick k = .ok { a with
        nominee := some p,
        bid := 1,
        state := .BID,
        bids := (List.range a.owners.length).map
          (fun i => if i = a.turn_index then (1 : Int) else 0),
        tickbids := List.replicate a.owners.length 0,
        turn_index := a.turn_index + 1 % a.owners.length })
    ∧ (a.nominee = none → a.undrafted_players = [] →
        a.tick k = .error .indexError)
    ∧ (∀ p, a.nominee = some p → a.owners = [] →
        a.tick k = .error .zeroDivisionError)
    ∧ (a.nominee = none → ∀ p rest, a.undrafted_players = p :: rest → a.owners = [] →
        a.tick k = .error .zeroDivisionError) := by
  refine ⟨?_, ?_, ?_, ?_, ?_⟩
  · intro p hp hne
    have h0 : a.owners.length ≠ 0 := by
      simpa [List.length_eq_zero] using hne
    simp [Auc.Auction.tick, hs, hp, pyMod, h0]
  · intro hn p rest hu hne
    have h0 : a.owners.length ≠ 0 := by
      simpa [List.length_eq_zero] using hne
    simp [Auc.Auction.tick, hs, hn, hu, pyMod, h0]
  · intro hn hu
    simp [Auc.Auction.tick, hs, hn, hu]
  · intro p hp he
    simp [Auc.Auction.tick, hs, hp, he, pyMod]
  · intro hn p rest hu he
    simp [Auc.Auction.tick, hs, hn, hu, he, pyMod]

theorem C7_tick_nominate_transition_witness :
    auc0.tick 0 = .ok { auc0 with
      nominee := some p1T,
      bid := 1,
      state := .BID,
      bids := (List.range auc0.owners.length).map
        (fun i => if i = auc0.turn_index then (1 : Int) else 0),
      tickbids := List.replicate auc0.owners.length 0,
      turn_index := auc0.turn_index + 1 % auc0.owners.length } :=
  (C7_tick_nominate_transition auc0 0 rfl).2.1 rfl p1T [p2T] (by decide) (by decide)

/-- C10: out-of-range ids raise IndexError instead of returning the documented
False result: `nominate` evaluates `owners[owner_id]` and `players[player_idx]`
before any legality check (here in state BID, where the in-range call is
rejected with False), and `place_bid` indexes `tickbids[owner_id]` before its
`can_buy` check (in state NOMINATE it returns False before indexing, since the
state check comes first). -/
theorem C10_index_errors_before_checks :
    auc2.state = .BID
    ∧ auc2.nominate 5 0 1 = .error .indexError
    ∧ auc2.nominate 0 5 1 = .error .indexError
    ∧ (auc2.nominate 0 0 3).map Prod.fst = .ok false
    ∧ auc2.place_bid 5 2 = .error .indexError
    ∧ auc0.place_bid 5 2 = .ok (false, auc0) := by
  exact ⟨by decide, by decide, by decide, by decide, by decide, by decide⟩

/-! Rewrite lemmas for `Owner._slot_in` of `owner.py`. -/

theorem slot_in_nil (p : Player) (c : Int) : Owner.slot_in [] p c = [] := rfl

theorem slot_in_cons_no (s : OwnerRosterSlot) (t : List OwnerRosterSlot)
    (p : Player) (c : Int) (h : s.accepts p = false) :
    Owner.slot_in (s :: t) p c = s :: Owner.slot_in t p c := by
  simp [Owner.slot_in, h]

theorem slot_in_cons_empty (s : OwnerRosterSlot) (t : List OwnerRosterSlot)
    (p : Player) (c : Int) (h : s.accepts p = true) (h2 : s.occupant = none) :
    Owner.slot_in (s :: t) p c = { s with occupant := some p, cost := c } :: t := by
  rw [Owner.slot_in, h2]
  simp [h]

theorem slot_in_cons_evict (s : OwnerRosterSlot) (t : List OwnerRosterSlot)
    (p q : Player) (c : Int) (h : s.accepts p = true) (h2 : s.occupant = some q)
    (h3 : q.value < p.value) :
    Owner.slot_in (s :: t) p c
      = { s with occupant := some p, cost := c } :: Owner.slot_in t q s.cost := by
  rw [Owner.slot_in, h2]
  simp [h, h3]

theorem slot_in_cons_skip (s : OwnerRosterSlot) (t : List OwnerRosterSlot)
    (p q : Player) (c : Int) (h : s.accepts p = true) (h2 : s.occupant = some q)
    (h3 : ¬ q.value < p.value) :
    Owner.slot_in (s :: t) p c = s :: Owner.slot_in t p c := by
  rw [Owner.slot_in, h2]
  simp [h, h3]

theorem accepts_set (s : OwnerRosterSlot) (p p2 : Player) (c : Int) :
    ({ s with occupant := some p2, cost := c } : OwnerRosterSlot).accepts p
      = s.accepts p := rfl

/-! Occupant bookkeeping. -/

theorem occs_cons_none (s : OwnerRosterSlot) (t : List OwnerRosterSlot)
    (h : s.occupant = none) : occs (s :: t) = occs t := by
  simp [occs, List.filterMap_cons, h]

theorem occs_cons_some (s : OwnerRosterSlot) (t : List OwnerRosterSlot) (q : Player)
    (h : s.occupant = some q) : occs (s :: t) = q :: occs t := by
  simp [occs, List.filterMap_cons, h]

theorem vals_cons_none (s : OwnerRosterSlot) (t : List OwnerRosterSlot)
    (h : s.occupant = none) : vals (s :: t) = vals t := by
  simp [vals, occs_cons_none s t h]

theorem vals_cons_some (s : OwnerRosterSlot) (t : List OwnerRosterSlot) (q : Player)
    (h : s.occupant = some q) : vals (s :: t) = q.value :: vals t := by
  simp [vals, occs_cons_some s t q h]

/-- Inserting a player adds at most that player to the occupants (an evicted
player that fits nowhere later is dropped), as multisets. -/
theorem occs_slot_in_le (r : List OwnerRosterSlot) :
    ∀ (p : Player) (c : Int),
    (↑(occs (Owner.slot_in r p c)) : Multiset Player) ≤ p ::ₘ (↑(occs r) : Multiset Player) := by
  induction r with
  | nil =>
    intro p c
    rw [slot_in_nil]
    simp [occs]
  | cons s t ih =>
    intro p c
    by_cases ha : s.accepts p = true
    · rcases hocc : s.occupant with _ | z
      · rw [slot_in_cons_empty s t p c ha hocc]
        rw [occs_cons_some _ _ p rfl, occs_cons_none s t hocc]
        simp
      · by_cases hv : z.value < p.value
        · rw [slot_in_cons_evict s t p z c ha hocc hv]
          rw [occs_cons_some _ _ p rfl, occs_cons_some s t z hocc]
          have h2 := ih z s.cost
          calc (↑(p :: occs (Owner.slot_in t z s.cost)) : Multiset Player)
              = p ::ₘ ↑(occs (Owner.slot_in t z s.cost)) := by simp
            _ ≤ p ::ₘ z ::ₘ ↑(occs t) := Multiset.cons_le_cons p h2
            _ = p ::ₘ ↑(z :: occs t) := by simp
        · rw [slot_in_cons_skip s t p z c ha hocc hv]
          rw [occs_cons_some _ _ z hocc, occs_cons_some s t z hocc]
          have h2 := ih p c
          calc (↑(z :: occs (Owner.slot_in t p c)) : Multiset Player)
              = z ::ₘ ↑(occs (Owner.slot_in t p c)) := by simp
            _ ≤ z ::ₘ p ::ₘ ↑(occs t) := Multiset.cons_le_cons z h2
            _ = p ::ₘ z ::ₘ ↑(occs t) := Multiset.cons_swap z p _
            _ = p ::ₘ ↑(z :: occs t) := by simp
    · have ha2 : s.accepts p = false := by simpa using ha
      rw [slot_in_cons_no s t p c ha2]
      rcases hocc : s.occupant with _ | z
      · rw [occs_cons_none _ _ hocc, occs_cons_none s t hocc]
        exact ih p c
      · rw [occs_cons_some _ _ z hocc, occs_cons_some s t z hocc]
        have h2 := ih p c
        calc (↑(z :: occs (Owner.slot_in t p c)) : Multiset Player)
            = z ::ₘ ↑(occs (Owner.slot_in t p c)) := by simp
          _ ≤ z ::ₘ p ::ₘ ↑(occs t) := Multiset.cons_le_cons z h2
          _ = p ::ₘ z ::ₘ ↑(occs t) := Multiset.cons_swap z p _
          _ = p ::ₘ ↑(z :: occs t) := by simp

theorem vals_slot_in_le (r : List OwnerRosterSlot) (p : Player) (c : Int) :
    (↑(vals (Owner.slot_in r p c)) : Multiset Int) ≤ p.value ::ₘ (↑(vals r) : Multiset Int) := by
  have h := occs_slot_in_le r p c
  have h2 := Multiset.map_le_map (f := fun q : Player => q.value) h
  simpa [vals] using h2

theorem mem_vals_slot_in (r : List OwnerRosterSlot) (p : Player) (c : Int) (v : Int)
    (hv : v ∈ vals (Owner.slot_in r p c)) : v = p.value ∨ v ∈ vals r := by
  have h := vals_slot_in_le r p c
  have h2 : v ∈ (p.value ::ₘ (↑(vals r) : Multiset Int)) :=
    Multiset.mem_of_le h (by simpa using hv)
  simpa using h2

theorem vals_slot_in_nodup (r : List OwnerRosterSlot) (p : Player) (c : Int)
    (hn : (vals r).Nodup) (hp : p.value ∉ vals r) :
    (vals (Owner.slot_in r p c)).Nodup := by
  have h := vals_slot_in_le r p c
  have h2 : (p.value ::ₘ (↑(vals r) : Multiset Int)).Nodup := by
    rw [Multiset.nodup_cons]
    exact ⟨by simpa using hp, by simpa using hn⟩
  have h3 := Multiset.nodup_of_le h h2
  simpa using h3

theorem not_mem_vals_slot_in (r : List OwnerRosterSlot) (p : Player) (c : Int) (v : Int)
    (hvp : v ≠ p.value) (hvr : v ∉ vals r) : v ∉ vals (Owner.slot_in r p c) := by
  intro hmem
  rcases mem_vals_slot_in r p c v hmem with h | h
  · exact hvp h
  · exact hvr h

/-- Key lemma for order-independence: two insertions with fresh, distinct
values commute on a roster whose occupant values are distinct. -/
theorem slot_in_comm : ∀ (r : List OwnerRosterSlot) (p1 p2 : Player) (c1 c2 : Int),
    p1.value ≠ p2.value → p1.value ∉ vals r → p2.value ∉ vals r → (vals r).Nodup →
    Owner.slot_in (Owner.slot_in r p1 c1) p2 c2
      = Owner.slot_in (Owner.slot_in r p2 c2) p1 c1 := by
  intro r
  induction r with
  | nil =>
    intro p1 p2 c1 c2 _ _ _ _
    rfl
  | cons s t ih =>
    intro p1 p2 c1 c2 h12 h1 h2 hn
    rcases hocc : s.occupant with _ | z
    · -- the head slot is empty
      rw [vals_cons_none s t hocc] at h1 h2 hn
      by_cases ha1 : s.accepts p1 = true
      · by_cases ha2 : s.accepts p2 = true
        · -- both accepted by the empty head
          have ha2u : ({ s with occupant := some p1, cost := c1 } :
              OwnerRosterSlot).accepts p2 = true := ha2
          have ha1u : ({ s with occupant := some p2, cost := c2 } :
              OwnerRosterSlot).accepts p1 = true := ha1
          rw [slot_in_cons_empty s t p1 c1 ha1 hocc,
            slot_in_cons_empty s t p2 c2 ha2 hocc]
          by_cases hvv : p1.value < p2.value
          · rw [slot_in_cons_evict _ t p2 p1 c2 ha2u rfl hvv,
              slot_in_cons_skip _ t p1 p2 c1 ha1u rfl (by omega)]
          · have hvv2 : ¬ p2.value < p1.value ∨ p2.value < p1.value := by omega
            have hvv2 : p2.value < p1.value := by omega
            rw [slot_in_cons_skip _ t p2 p1 c2 ha2u rfl (by omega),
              slot_in_cons_evict _ t p1 p2 c1 ha1u rfl hvv2]
        · have ha2f : s.accepts p2 = false := by simpa using ha2
          have ha2u : ({ s with occupant := some p1, cost := c1 } :
              OwnerRosterSlot).accepts p2 = false := ha2f
          rw [slot_in_cons_empty s t p1 c1 ha1 hocc,
            slot_in_cons_no _ _ p2 c2 ha2u,
            slot_in_cons_no s t p2 c2 ha2f,
            slot_in_cons_empty s _ p1 c1 ha1 hocc]
      · have ha1f : s.accepts p1 = false := by simpa using ha1
        by_cases ha2 : s.accepts p2 = true
        · have ha1u : ({ s with occupant := some p2, cost := c2 } :
              OwnerRosterSlot).accepts p1 = false := ha1f
          rw [slot_in_cons_no s t p1 c1 ha1f,
            slot_in_cons_empty s _ p2 c2 ha2 hocc,
            slot_in_cons_empty s t p2 c2 ha2 hocc,
            slot_in_cons_no _ _ p1 c1 ha1u]
        · have ha2f : s.accepts p2 = false := by simpa using ha2
          rw [slot_in_cons_no s t p1 c1 ha1f,
            slot_in_cons_no s _ p2 c2 ha2f,
            slot_in_cons_no s t p2 c2 ha2f,
            slot_in_cons_no s _ p1 c1 ha1f]
          exact congrArg (fun xs => s :: xs) (ih p1 p2 c1 c2 h12 h1 h2 hn)
    · -- the head slot holds z
      rw [vals_cons_some s t z hocc] at h1 h2 hn
      have hz1 : p1.value ≠ z.value := by
        intro h
        exact h1 (by simp [h])
      have h1t : p1.value ∉ vals t := fun h => h1 (List.mem_cons_of_mem _ h)
      have hz2 : p2.value ≠ z.value := by
        intro h
        exact h2 (by simp [h])
      have h2t : p2.value ∉ vals t := fun h => h2 (List.mem_cons_of_mem _ h)
      have hzt : z.value ∉ vals t := (List.nodup_cons.mp hn).1
      have hnt : (vals t).Nodup := (List.nodup_cons.mp hn).2
      by_cases ha1 : s.accepts p1 = true
      · by_cases ha2 : s.accepts p2 = true
        · by_cases hv1 : z.value < p1.value
          · by_cases hv2 : z.value < p2.value
            · -- both would evict z: the higher of the two ends up in the slot
              have ha2u : ({ s with occupant := some p1, cost := c1 } :
                  OwnerRosterSlot).accepts p2 = true := ha2
              have ha1u : ({ s with occupant := some p2, cost := c2 } :
                  OwnerRosterSlot).accepts p1 = true := ha1
              rw [slot_in_cons_evict s t p1 z c1 ha1 hocc hv1,
                slot_in_cons_evict s t p2 z c2 ha2 hocc hv2]
              by_cases hvv : p1.value < p2.value
              · rw [slot_in_cons_evict _ _ p2 p1 c2 ha2u rfl hvv,
                  slot_in_cons_skip _ _ p1 p2 c1 ha1u rfl (by omega)]
              · have hvv2 : p2.value < p1.value := by omega
                rw [slot_in_cons_skip _ _ p2 p1 c2 ha2u rfl (by omega),
                  slot_in_cons_evict _ _ p1 p2 c1 ha1u rfl hvv2]
            · -- p1 evicts z, p2 is below z
              have hv2b : p2.value < z.value := by omega
              have ha2u : ({ s with occupant := some p1, cost := c1 } :
                  OwnerRosterSlot).accepts p2 = true := ha2
              rw [slot_in_cons_evict s t p1 z c1 ha1 hocc hv1,
                slot_in_cons_skip _ _ p2 p1 c2 ha2u rfl (by omega),
                slot_in_cons_skip s t p2 z c2 ha2 hocc (by omega),
                slot_in_cons_evict s _ p1 z c1 ha1 hocc hv1]
              exact congrArg (fun xs => _ :: xs)
                (ih z p2 s.cost c2 hz2.symm hzt h2t hnt)
          · by_cases hv2 : z.value < p2.value
            · -- p2 evicts z, p1 is below z
              have hv1b : p1.value < z.value := by omega
              have ha1u : ({ s with occupant := some p2, cost := c2 } :
                  OwnerRosterSlot).accepts p1 = true := ha1
              rw [slot_in_cons_skip s t p1 z c1 ha1 hocc (by omega),
                slot_in_cons_evict s _ p2 z c2 ha2 hocc hv2,
                slot_in_cons_evict s t p2 z c2 ha2 hocc hv2,
                slot_in_cons_skip _ _ p1 p2 c1 ha1u rfl (by omega)]
              exact congrArg (fun xs => _ :: xs)
                (ih p1 z c1 s.cost hz1 h1t hzt hnt)
            · -- both below z: both skip
              rw [slot_in_cons_skip s t p1 z c1 ha1 hocc hv1,
                slot_in_cons_skip s _ p2 z c2 ha2 hocc hv2,
                slot_in_cons_skip s t p2 z c2 ha2 hocc hv2,
                slot_in_cons_skip s _ p1 z c1 ha1 hocc hv1]
              exact congrArg (fun xs => s :: xs) (ih p1 p2 c1 c2 h12 h1t h2t hnt)
        · have ha2f : s.accepts p2 = false := by simpa using ha2
          by_cases hv1 : z.value < p1.value
          · have ha2u : ({ s with occupant := some p1, cost := c1 } :
                OwnerRosterSlot).accepts p2 = false := ha2f
            rw [slot_in_cons_evict s t p1 z c1 ha1 hocc hv1,
              slot_in_cons_no _ _ p2 c2 ha2u,
              slot_in_cons_no s t p2 c2 ha2f,
              slot_in_cons_evict s _ p1 z c1 ha1 hocc hv1]
            exact congrArg (fun xs => _ :: xs)
              (ih z p2 s.cost c2 hz2.symm hzt h2t hnt)
          · rw [slot_in_cons_skip s t p1 z c1 ha1 hocc hv1,
              slot_in_cons_no s _ p2 c2 ha2f,
              slot_in_cons_no s t p2 c2 ha2f,
              slot_in_cons_skip s _ p1 z c1 ha1 hocc hv1]
            exact congrArg (fun xs => s :: xs) (ih p1 p2 c1 c2 h12 h1t h2t hnt)
      · have ha1f : s.accepts p1 = false := by simpa using ha1
        by_cases ha2 : s.accepts p2 = true
        · by_cases hv2 : z.value < p2.value
          · have ha1u : ({ s with occupant := some p2, cost := c2 } :
                OwnerRosterSlot).accepts p1 = false := ha1f
            rw [slot_in_cons_no s t p1 c1 ha1f,
              slot_in_cons_evict s _ p2 z c2 ha2 hocc hv2,
              slot_in_cons_evict s t p2 z c2 ha2 hocc hv2,
              slot_in_cons_no _ _ p1 c1 ha1u]
            exact congrArg (fun xs => _ :: xs)
              (ih p1 z c1 s.cost hz1 h1t hzt hnt)
          · rw [slot_in_cons_no s t p1 c1 ha1f,
              slot_in_cons_skip s _ p2 z c2 ha2 hocc hv2,
              slot_in_cons_skip s t p2 z c2 ha2 hocc hv2,
              slot_in_cons_no s _ p1 c1 ha1f]
            exact congrArg (fun xs => s :: xs) (ih p1 p2 c1 c2 h12 h1t h2t hnt)
        · have ha2f : s.accepts p2 = false := by simpa using ha2
          rw [slot_in_cons_no s t p1 c1 ha1f,
            slot_in_cons_no s _ p2 c2 ha2f,
            slot_in_cons_no s t p2 c2 ha2f,
            slot_in_cons_no s _ p1 c1 ha1f]
          exact congrArg (fun xs => s :: xs) (ih p1 p2 c1 c2 h12 h1t h2t hnt)

theorem mem_occs (l : List OwnerRosterSlot) (q : Player) :
    q ∈ occs l ↔ ∃ s2, s2 ∈ l ∧ s2.occupant = some q := by
  simp [occs, List.mem_filterMap]

theorem accepts_false_not_mem (s : OwnerRosterSlot) (p : Player)
    (h : s.accepts p = false) : p.position ∉ s.positions := by
  simpa [OwnerRosterSlot.accepts] using h

theorem slotOkB_eq_true_iff (s s2 : OwnerRosterSlot) :
    slotOkB s s2 = true ↔ ∀ q, s2.occupant = some q → headOk s q := by
  unfold slotOkB headOk
  rcases h2 : s2.occupant with _ | q
  · simp
  · simp only []
    constructor
    · intro h q2 hq2
      injection hq2 with hq2
      subst hq2
      intro hmem
      rw [if_pos hmem] at h
      rcases hs : s.occupant with _ | z
      · rw [hs] at h
        cases h
      · rw [hs] at h
        exact ⟨z, rfl, by simpa using h⟩
    · intro h
      by_cases hmem : q.position ∈ s.positions
      · rw [if_pos hmem]
        obtain ⟨z, hz, hlt⟩ := h q rfl hmem
        rw [hz]
        simpa using hlt
      · rw [if_neg hmem]

theorem forall_slotOkB_iff (s : OwnerRosterSlot) (l : List OwnerRosterSlot) :
    (∀ s2 ∈ l, slotOkB s s2 = true) ↔ ∀ q ∈ occs l, headOk s q := by
  constructor
  · intro h q hq
    obtain ⟨s2, hs2, hocc⟩ := (mem_occs l q).mp hq
    exact (slotOkB_eq_true_iff s s2).mp (h s2 hs2) q hocc
  · intro h s2 hs2
    exact (slotOkB_eq_true_iff s s2).mpr
      (fun q hq => h q ((mem_occs l q).mpr ⟨s2, hs2, hq⟩))

/-- Slot assignment preserves the "higher value in more specific slots"
ordering, provided the inserted value is fresh and occupant values are
distinct. -/
theorem rosterOrdered_slot_in : ∀ (r : List OwnerRosterSlot) (p : Player) (c : Int),
    rosterOrdered r → p.value ∉ vals r → (vals r).Nodup →
    rosterOrdered (Owner.slot_in r p c) := by
  intro r
  induction r with
  | nil =>
    intro p c _ _ _
    exact List.Pairwise.nil
  | cons s t ih =>
    intro p c ho hp hn
    unfold rosterOrdered at ho ⊢
    have hhead : ∀ s2 ∈ t, slotOkB s s2 = true := (List.pairwise_cons.mp ho).1
    have htail : rosterOrdered t := (List.pairwise_cons.mp ho).2
    have hheadO : ∀ q ∈ occs t, headOk s q := (forall_slotOkB_iff s t).mp hhead
    by_cases ha : s.accepts p = true
    · rcases hocc : s.occupant with _ | z
      · rw [slot_in_cons_empty s t p c ha hocc]
        rw [vals_cons_none s t hocc] at hp hn
        apply List.pairwise_cons.mpr
        refine ⟨?_, htail⟩
        intro s2 hs2
        apply (slotOkB_eq_true_iff _ s2).mpr
        intro q hq hmem
        obtain ⟨z, hz, _⟩ := hheadO q ((mem_occs t q).mpr ⟨s2, hs2, hq⟩) hmem
        rw [hocc] at hz
        cases hz
      · rw [vals_cons_some s t z hocc] at hp hn
        have hpz : p.value ≠ z.value := fun h => hp (by simp [h])
        have hpt : p.value ∉ vals t := fun h => hp (List.mem_cons_of_mem _ h)
        have hzt : z.value ∉ vals t := (List.nodup_cons.mp hn).1
        have hnt : (vals t).Nodup := (List.nodup_cons.mp hn).2
        by_cases hv : z.value < p.value
        · rw [slot_in_cons_evict s t p z c ha hocc hv]
          apply List.pairwise_cons.mpr
          constructor
          · intro s2 hs2
            apply (slotOkB_eq_true_iff _ s2).mpr
            intro q hq hmem
            refine ⟨p, rfl, ?_⟩
            have hqm : q ∈ occs (Owner.slot_in t z s.cost) :=
              (mem_occs _ q).mpr ⟨s2, hs2, hq⟩
            have hq2 : q ∈ (z ::ₘ (↑(occs t) : Multiset Player)) :=
              Multiset.mem_of_le (occs_slot_in_le t z s.cost) (by simpa using hqm)
            simp only [Multiset.mem_cons, Multiset.mem_coe] at hq2
            rcases hq2 with rfl | hqt
            · exact hv
            · obtain ⟨z2, hz2, hlt⟩ := hheadO q hqt hmem
              rw [hocc] at hz2
              injection hz2 with hz2
              subst hz2
              omega
          · exact ih z s.cost htail hzt hnt
        · rw [slot_in_cons_skip s t p z c ha hocc hv]
          apply List.pairwise_cons.mpr
          constructor
          · intro s2 hs2
            apply (slotOkB_eq_true_iff _ s2).mpr
            intro q hq hmem
            have hqm : q ∈ occs (Owner.slot_in t p c) :=
              (mem_occs _ q).mpr ⟨s2, hs2, hq⟩
            have hq2 : q ∈ (p ::ₘ (↑(occs t) : Multiset Player)) :=
              Multiset.mem_of_le (occs_slot_in_le t p c) (by simpa using hqm)
            simp only [Multiset.mem_cons, Multiset.mem_coe] at hq2
            rcases hq2 with rfl | hqt
            · exact ⟨z, hocc, by omega⟩
            · exact hheadO q hqt hmem
          · exact ih p c htail hpt hnt
    · have haf : s.accepts p = false := by simpa using ha
      rw [slot_in_cons_no s t p c haf]
      apply List.pairwise_cons.mpr
      have hfresh : ∀ q ∈ occs (Owner.slot_in t p c), q = p ∨ q ∈ occs t := by
        intro q hqm
        have hq2 : q ∈ (p ::ₘ (↑(occs t) : Multiset Player)) :=
          Multiset.mem_of_le (occs_slot_in_le t p c) (by simpa using hqm)
        simpa using hq2
      have hnew : ∀ s2 ∈ Owner.slot_in t p c, slotOkB s s2 = true := by
        apply (forall_slotOkB_iff s _).mpr
        intro q hq hmem
        rcases hfresh q hq with rfl | hqt
        · exact absurd hmem (accepts_false_not_mem s q haf)
        · exact hheadO q hqt hmem
      rcases hocc : s.occupant with _ | z
      · rw [vals_cons_none s t hocc] at hp hn
        exact ⟨hnew, ih p c htail hp hn⟩
      · rw [vals_cons_some s t z hocc] at hp hn
        exact ⟨hnew, ih p c htail (fun h => hp (List.mem_cons_of_mem _ h))
          (List.nodup_cons.mp hn).2⟩

/-- Inserting the head purchase preserves distinctness of the remaining value
pool together with the occupant values. -/
theorem nodup_vals_step (r : List OwnerRosterSlot) (x : Player × Int) (L : List Int)
    (h : (vals r ++ x.1.value :: L).Nodup) :
    (vals (Owner.slot_in r x.1 x.2) ++ L).Nodup := by
  rw [List.nodup_append] at h
  obtain ⟨hnr, hnxl, hdisj⟩ := h
  have hxL : x.1.value ∉ L := (List.nodup_cons.mp hnxl).1
  have hnL : L.Nodup := (List.nodup_cons.mp hnxl).2
  have hxr : x.1.value ∉ vals r := by
    intro hmem
    exact hdisj hmem (List.mem_cons_self _ _)
  rw [List.nodup_append]
  refine ⟨vals_slot_in_nodup r x.1 x.2 hnr hxr, hnL, ?_⟩
  intro v hv hvL
  rcases mem_vals_slot_in r x.1 x.2 v hv with rfl | hvr
  · exact hxL hvL
  · exact hdisj hvr (List.mem_cons_of_mem _ hvL)

/-- Folding `_slot_in` over a purchase list is invariant under permutation when
all inserted values and all occupant values are pairwise distinct. -/
theorem insFold_perm {l1 l2 : List (Player × Int)} (hperm : l1.Perm l2) :
    ∀ (r : List OwnerRosterSlot),
    (vals r ++ l1.map (fun pc => pc.1.value)).Nodup →
    insFold r l1 = insFold r l2 := by
  induction hperm with
  | nil =>
    intro r _
    rfl
  | cons x hp ih =>
    intro r h
    have h2 : (vals (Owner.slot_in r x.1 x.2) ++ _).Nodup :=
      nodup_vals_step r x _ (by simpa using h)
    exact ih (Owner.slot_in r x.1 x.2) h2
  | swap x y l =>
    intro r h
    have h2 : (vals r ++ y.1.value :: x.1.value :: l.map (fun pc => pc.1.value)).Nodup := by
      simpa using h
    rw [List.nodup_append] at h2
    obtain ⟨hnr, hnl, hdisj⟩ := h2
    have hyx : y.1.value ≠ x.1.value := by
      have := (List.nodup_cons.mp hnl).1
      intro he
      exact this (by simp [he])
    have hyr : y.1.value ∉ vals r := fun hm => hdisj hm (List.mem_cons_self _ _)
    have hxr : x.1.value ∉ vals r := fun hm =>
      hdisj hm (List.mem_cons_of_mem _ (List.mem_cons_self _ _))
    have hcomm : Owner.slot_in (Owner.slot_in r y.1 y.2) x.1 x.2
        = Owner.slot_in (Owner.slot_in r x.1 x.2) y.1 y.2 :=
      slot_in_comm r y.1 x.1 y.2 x.2 hyx hyr hxr hnr
    show insFold (Owner.slot_in (Owner.slot_in r y.1 y.2) x.1 x.2) l
      = insFold (Owner.slot_in (Owner.slot_in r x.1 x.2) y.1 y.2) l
    rw [hcomm]
  | trans hp1 hp2 ih1 ih2 =>
    intro r h
    rw [ih1 r h]
    apply ih2
    have hmap := hp1.map (fun pc : Player × Int => pc.1.value)
    have hp3 := hmap.append_left (vals r)
    exact hp3.nodup_iff.mp h

/-- The successful branch of `Owner.buy`, as an equation. -/
theorem buy_ok_eq (o : Owner) (p : Player) (c : Int) (o2 : Owner)
    (h : o.buy p c = .ok o2) :
    o2 = { o with
      money := o.money - c,
      remaining_picks_cache := o.remaining_picks_cache - 1,
      owned_player_ids := insert p.player_id o.owned_player_ids,
      roster := Owner.slot_in o.roster p c } := by
  unfold Owner.buy at h
  by_cases h1 : o.max_bid < c
  · rw [if_pos h1] at h
    cases h
  · rw [if_neg h1] at h
    by_cases h2 : o.hasOpenSlotFor p
    · simp only [h2, Bool.not_true, Bool.false_eq_true, if_false] at h
      by_cases h3 : o.owns p
      · rw [h3, if_pos rfl] at h
        cases h
      · simp only [Bool.not_eq_true] at h3
        simp only [h3, Bool.false_eq_true, if_false] at h
        injection h with h
        exact h.symm
    · simp only [Bool.not_eq_true] at h2
      simp only [h2, Bool.not_false, if_true] at h
      cases h

/-- A successful purchase sequence, as one equation over folds. -/
theorem buySeq_ok_eq : ∀ (l : List (Player × Int)) (o o2 : Owner),
    o.buySeq l = .ok o2 →
    o2 = { money := o.money - sumCostsL l,
           roster := insFold o.roster l,
           id := o.id,
           remaining_picks_cache := o.remaining_picks_cache - l.length,
           owned_player_ids :=
             l.foldl (fun s pc => insert pc.1.player_id s) o.owned_player_ids } := by
  intro l
  induction l with
  | nil =>
    intro o o2 h
    unfold Owner.buySeq at h
    injection h with h
    subst h
    cases o
    simp [sumCostsL, insFold]
  | cons x rest ih =>
    intro o o2 h
    unfold Owner.buySeq at h
    rcases hbuy : o.buy x.1 x.2 with e | o1
    · rw [hbuy] at h
      cases h
    · rw [hbuy] at h
      have heq := buy_ok_eq o x.1 x.2 o1 hbuy
      subst heq
      have h2 := ih _ o2 h
      rw [h2, Owner.mk.injEq]
      refine ⟨?_, rfl, rfl, ?_, rfl⟩
      · show o.money - x.2 - sumCostsL rest = o.money - sumCostsL (x :: rest)
        have hsum : sumCostsL (x :: rest) = x.2 + sumCostsL rest := by
          simp [sumCostsL]
        rw [hsum]
        omega
      · show o.remaining_picks_cache - 1 - (rest.length : Int)
          = o.remaining_picks_cache - ((x :: rest).length : Int)
        rw [List.length_cons]
        push_cast
        omega

/-- Finset insertion folds are permutation-invariant. -/
theorem foldl_insert_perm {l1 l2 : List (Player × Int)} (hperm : l1.Perm l2) :
    ∀ (s : Finset Nat),
    l1.foldl (fun s pc => insert pc.1.player_id s) s
      = l2.foldl (fun s pc => insert pc.1.player_id s) s := by
  induction hperm with
  | nil => intro s; rfl
  | cons x hp ih => intro s; exact ih _
  | swap x y l =>
    intro s
    show l.foldl _ (insert x.1.player_id (insert y.1.player_id s))
      = l.foldl _ (insert y.1.player_id (insert x.1.player_id s))
    rw [Finset.Insert.comm]
  | trans hp1 hp2 ih1 ih2 =>
    intro s
    rw [ih1 s, ih2 s]

theorem insOrd_perm {α : Type} (lt : α → α → Bool) (x : α) :
    ∀ (l : List α), (insOrd lt x l).Perm (x :: l) := by
  intro l
  induction l with
  | nil => exact List.Perm.refl _
  | cons y ys ih =>
    rw [insOrd]
    by_cases h : lt x y = true
    · rw [if_pos h]
    · rw [if_neg h]
      exact (ih.cons y).trans (List.Perm.swap x y ys)

theorem stableSortBy_perm {α : Type} (lt : α → α → Bool) (l : List α) :
    (stableSortBy lt l).Perm l := by
  have hgen : ∀ (l acc : List α),
      (l.foldl (fun a x => insOrd lt x a) acc).Perm (acc ++ l) := by
    intro l
    induction l with
    | nil => intro acc; simp
    | cons x xs ih =>
      intro acc
      have h1 := ih (insOrd lt x acc)
      have h2 : (insOrd lt x acc ++ xs).Perm ((x :: acc) ++ xs) :=
        (insOrd_perm lt x acc).append_right xs
      have h3 : ((x :: acc) ++ xs).Perm (acc ++ x :: xs) := by
        simpa using List.perm_middle.symm
      exact (h1.trans h2).trans h3
  simpa using hgen l []

/-- Every slot of a freshly constructed owner is empty. -/
theorem init_roster_empty (money : Int) (tmpl : List RosterSlot) (oid : Nat) :
    ∀ s ∈ (Owner.init money tmpl oid).roster, s.occupant = none := by
  intro s hs
  have hperm := stableSortBy_perm
    (fun a b : OwnerRosterSlot => decide (a.num_accepted < b.num_accepted))
    (tmpl.map OwnerRosterSlot.from_roster_slot)
  have hs2 : s ∈ tmpl.map OwnerRosterSlot.from_roster_slot := hperm.mem_iff.mp hs
  obtain ⟨rs, _, hrs⟩ := List.mem_map.mp hs2
  rw [← hrs]
  rfl

theorem vals_init (money : Int) (tmpl : List RosterSlot) (oid : Nat) :
    vals ((Owner.init money tmpl oid).roster) = [] := by
  have h : occs ((Owner.init money tmpl oid).roster) = [] := by
    rw [occs, List.filterMap_eq_nil_iff]
    intro s hs
    simp [init_roster_empty money tmpl oid s hs]
  rw [vals, h]
  rfl

theorem rosterOrdered_of_empty (r : List OwnerRosterSlot)
    (h : ∀ s ∈ r, s.occupant = none) : rosterOrdered r := by
  induction r with
  | nil => exact List.Pairwise.nil
  | cons s t ih =>
    apply List.Pairwise.cons
    · intro s2 hs2
      unfold slotOkB
      rw [h s2 (List.mem_cons_of_mem _ hs2)]
    · exact ih (fun s2 hs2 => h s2 (List.mem_cons_of_mem _ hs2))

/-- Folding purchases with pairwise-distinct values onto an ordered roster with
fresh, distinct occupant values keeps the roster ordered. -/
theorem insFold_ordered : ∀ (l : List (Player × Int)) (r : List OwnerRosterSlot),
    rosterOrdered r → (vals r ++ l.map (fun pc => pc.1.value)).Nodup →
    rosterOrdered (insFold r l) := by
  intro l
  induction l with
  | nil =>
    intro r ho _
    exact ho
  | cons x rest ih =>
    intro r ho hn
    have hn2 : (vals r ++ x.1.value :: rest.map (fun pc => pc.1.value)).Nodup := by
      simpa using hn
    rw [List.nodup_append] at hn2
    obtain ⟨hnr, hnxl, hdisj⟩ := hn2
    have hxr : x.1.value ∉ vals r := fun hm => hdisj hm (List.mem_cons_self _ _)
    show rosterOrdered (insFold (Owner.slot_in r x.1 x.2) rest)
    apply ih
    · exact rosterOrdered_slot_in r x.1 x.2 ho hxr hnr
    · exact nodup_vals_step r x _ (by simpa using hn)

/-- C5 (amended): for every set of players WITH PAIRWISE DISTINCT VALUES that
an Owner buys (each purchase succeeding, hence satisfying `buy`'s checks at
buy time), the final owner — in particular the assignment of players to roster
slots — is identical regardless of the order of the purchases, and in the
final seating higher-value players always occupy the most specific eligible
slots (`rosterOrdered`: any more specific slot accepting an occupant of a
later slot holds a strictly higher-valued player). -/
theorem C5_assignment_order_independent (money : Int) (template : List RosterSlot)
    (oid : Nat) (l1 l2 : List (Player × Int)) (o1 o2 : Owner)
    (hperm : l1.Perm l2)
    (hvalsnd : (l1.map (fun pc => pc.1.value)).Nodup)
    (h1 : (Owner.init money template oid).buySeq l1 = .ok o1)
    (h2 : (Owner.init money template oid).buySeq l2 = .ok o2) :
    o1 = o2 ∧ rosterOrdered o1.roster := by
  have hvinit := vals_init money template oid
  have hnd : (vals ((Owner.init money template oid).roster)
      ++ l1.map (fun pc => pc.1.value)).Nodup := by
    rw [hvinit]
    simpa using hvalsnd
  have e1 := buySeq_ok_eq l1 _ o1 h1
  have e2 := buySeq_ok_eq l2 _ o2 h2
  constructor
  · rw [e1, e2]
    have hmoney : sumCostsL l1 = sumCostsL l2 := by
      unfold sumCostsL
      exact (hperm.map _).sum_eq
    have hlen : l1.length = l2.length := hperm.length_eq
    have howned := foldl_insert_perm hperm
      ((Owner.init money template oid).owned_player_ids)
    have hroster := insFold_perm hperm ((Owner.init money template oid).roster) hnd
    rw [hmoney, hlen, howned, hroster]
  · rw [e1]
    have hord : rosterOrdered ((Owner.init money template oid).roster) := by
      apply rosterOrdered_of_empty
      exact init_roster_empty money template oid
    exact insFold_ordered l1 _ hord hnd

theorem C5_assignment_order_independent_witness :
    ownerPairRes1 = ownerPairRes2 ∧ rosterOrdered ownerPairRes1.roster :=
  C5_assignment_order_independent 10 [RosterSlot.WR, RosterSlot.BN] 3
    [(pWR10, 1), (pWR7, 2)] [(pWR7, 2), (pWR10, 1)] ownerPairRes1 ownerPairRes2
    (List.Perm.swap (pWR7, 2) (pWR10, 1) [])
    (by decide) (by decide) (by decide)

theorem C8_tick_accepts_max_submission_witness :
    auc3.tick 0 = .ok { auc3 with
      bid := Auc.pyMax auc3.tickbids,
      bids := auc3.bids.set
        ((Auc.topIdxs auc3.tickbids).getD (0 % (Auc.topIdxs auc3.tickbids).length) 0)
        (Auc.pyMax auc3.tickbids),
      tickbids := List.replicate auc3.owners.length 0 } :=
  (C8_tick_accepts_max_submission auc3 0 (by decide) (by decide)).1
